import Mathlib

/-! Shallow embedding of the record transformation module (confluent/data/transformers.py)
of the data-tools repository.  Records are modelled as a tagged tree of JSON-like values;
Python dicts are ordered association lists with in-place update semantics; Python numbers
are modelled by exact rationals; fallible Python code returns Option (none stands for a
raised exception).  The filesystem touched by the job orchestrator is an association list
from path strings to decoded file contents. -/

mutual

inductive Value where
  | null : Value
  | bool : Bool → Value
  | num : Rat → Value
  | str : String → Value
  | arr : VList → Value
  | obj : Fields → Value

inductive VList where
  | nil : VList
  | cons : Value → VList → VList

inductive Fields where
  | nil : Fields
  | cons : String → Value → Fields → Fields

end

/-- Keys of an ordered dict, in order. -/
def keysOf : Fields → List String
  | Fields.nil => []
  | Fields.cons k _ tl => k :: keysOf tl

/-- Membership test for a list of strings (models the Python in operator on a set of
strings; order and duplicates are irrelevant to membership). -/
def hasStr : List String → String → Bool
  | [], _ => false
  | x :: tl, s => x == s || hasStr tl s

/-- Dict lookup, models record[key] for dicts with unique keys (first match). -/
def dictGet : Fields → String → Option Value
  | Fields.nil, _ => none
  | Fields.cons k v tl, key => if k == key then some v else dictGet tl key

/-- Dict assignment record[key] = val: updates the value in place (keeping the position
of the key, as Python dicts do) or appends a fresh key at the end. -/
def dictSet : Fields → String → Value → Fields
  | Fields.nil, key, val => Fields.cons key val Fields.nil
  | Fields.cons k v tl, key, val =>
      if k == key then Fields.cons k val tl else Fields.cons k v (dictSet tl key val)

/-- Models record.pop(key, None): removes the entry for key when present. -/
def dictPop : Fields → String → Fields
  | Fields.nil, _ => Fields.nil
  | Fields.cons k v tl, key => if k == key then tl else Fields.cons k v (dictPop tl key)

/-- True when the keys of the dict are pairwise distinct, the invariant every dict decoded
from JSON satisfies. -/
def keysNodup : Fields → Bool
  | Fields.nil => true
  | Fields.cons k _ tl => !(hasStr (keysOf tl) k) && keysNodup tl

/-- Replays a sequence of key assignments into a fresh dict, exactly as the loop of
_clean_bigquery_keys builds clean_data entry by entry. -/
def dictReplayAux : Fields → Fields → Fields
  | acc, Fields.nil => acc
  | acc, Fields.cons k v tl => dictReplayAux (dictSet acc k v) tl

/-- The dict obtained by inserting the listed entries in order into an empty dict. -/
def dictReplay (fs : Fields) : Fields := dictReplayAux Fields.nil fs

/-- The character class of INVALID_KEY_CHARS_RE, complemented: characters that survive
the regex [^a-zA-Z0-9_] untouched. -/
def validKeyChar (c : Char) : Bool :=
  (('a' ≤ c && c ≤ 'z') || ('A' ≤ c && c ≤ 'Z') || ('0' ≤ c && c ≤ '9') || c == '_')

/-- INVALID_KEY_CHARS_RE.sub applied to a key: every character outside the class
a-zA-Z0-9_ is replaced by an underscore (transformers.py line 129). -/
def sanitizeKey (s : String) : String :=
  String.mk (s.data.map (fun c => if validKeyChar c then c else '_'))

/-- True for a string whose characters are all in the BigQuery-valid class. -/
def keyIsClean (s : String) : Bool := s.data.all validKeyChar

/-- Models str.startswith applied with a dash, as in transformers.py line 40. -/
def startsDash (s : String) : Bool :=
  match s.data with
  | c :: _ => c == '-'
  | [] => false

/-- Models the Python lstrip with a dash argument: drops every leading dash. -/
def stripDashes (s : String) : String :=
  String.mk (s.data.dropWhile (fun c => c == '-'))

/-- The constructor logic of Transformer.__init__ (transformers.py lines 36-42): the field
spec is split into the fields to select (no dash) and the fields to exclude (entries with
a leading dash, dashes stripped).  The empty list plays the role of the falsy values None
and the empty set. -/
def splitFields (select_fields : List String) : List String × List String :=
  if select_fields.isEmpty then (select_fields, [])
  else
    ((select_fields.filter (fun f => !(startsDash f))),
     (select_fields.filter (fun f => startsDash f)).map stripDashes)

/-- The dotted full path of a key under an optional parent path, computed from the
original key before sanitization (transformers.py line 128). -/
def fullKeyOf (pk : Option String) (k : String) : String :=
  match pk with
  | some p => p ++ "." ++ k
  | none => k

/-- The drop condition of _clean_bigquery_keys (transformers.py lines 131-133): with a
non-empty select set a key whose full path is not selected is dropped, otherwise a key
whose full path is excluded is dropped. -/
def dropKey (sel exc : List String) (full : String) : Bool :=
  (!sel.isEmpty && !(hasStr sel full)) || (!exc.isEmpty && hasStr exc full)

mutual

/-- Value treatment inside the loop of _clean_bigquery_keys (transformers.py lines
135-137): a dict value is cleaned recursively with the full path of its key as the new
parent path, every other value (lists included) is passed through unchanged. -/
def cleanValue (sel exc : List String) (full : String) : Value → Value
  | Value.obj fs => Value.obj (dictReplay (cleanFields sel exc (some full) fs))
  | v => v

/-- The loop body of _clean_bigquery_keys in iteration order: for each entry the full
path is computed from the original key, the key is sanitized, dropped entries are
skipped, and kept entries carry the recursively cleaned value. -/
def cleanFields (sel exc : List String) (pk : Option String) : Fields → Fields
  | Fields.nil => Fields.nil
  | Fields.cons k v tl =>
      let full := fullKeyOf pk k
      if dropKey sel exc full then cleanFields sel exc pk tl
      else Fields.cons (sanitizeKey k) (cleanValue sel exc full v) (cleanFields sel exc pk tl)

end

/-- _clean_bigquery_keys (transformers.py lines 115-141): the kept, sanitized entries are
assembled into a fresh dict by successive assignment, so that two keys sanitizing to the
same string collapse, the later value winning. -/
def _clean_bigquery_keys (sel exc : List String) (pk : Option String) (fs : Fields) : Fields :=
  dictReplay (cleanFields sel exc pk fs)

/-- Truncation toward zero on rationals, the behaviour of the Python int builtin on a
number: the numerator divided by the denominator with the quotient truncated toward
zero.  A Rat is stored in lowest terms with a positive denominator, so this is exact;
the theorem ratTrunc_eq below identifies it with floor on nonnegative input and with
ceiling on negative input. -/
def ratTrunc (q : Rat) : Int := Int.tdiv q.num (q.den : Int)

/-- The exact value of q / 60 + 1 / 2, computed on the numerator and denominator so the
kernel can evaluate it on concrete records; the theorem ratDiv60PlusHalf_eq below proves
it equal to the literal formula of transformers.py lines 200-201. -/
def ratDiv60PlusHalf (q : Rat) : Rat :=
  Rat.divInt (q.num + 30 * (q.den : Int)) (60 * (q.den : Int))

/-- Parses a decimal string literal with an optional sign, the behaviour of the Python
int builtin on the strings relevant here (a string of digits, optionally signed); any
other string raises, modelled by none. -/
def digitsToNat : List Char → Option Nat
  | [] => none
  | l => if l.all (fun c => c.isDigit) then
      some (l.foldl (fun acc c => acc * 10 + (c.toNat - 48)) 0)
    else none

/-- Python int applied to a string. -/
def parseIntStr (s : String) : Option Int :=
  match s.data with
  | '-' :: rest => (digitsToNat rest).map (fun n => -(n : Int))
  | '+' :: rest => (digitsToNat rest).map (fun n => (n : Int))
  | l => (digitsToNat l).map (fun n => (n : Int))

/-- A value usable as the left operand of the Python division operator: numbers, and
booleans which Python treats as the integers 0 and 1.  Everything else raises. -/
def asPyNumber : Value → Option Rat
  | Value.num q => some q
  | Value.bool b => some (if b then 1 else 0)
  | _ => none

/-- True exactly when asPyNumber succeeds. -/
def isNumericValue : Value → Bool
  | Value.num _ => true
  | Value.bool _ => true
  | _ => false

/-- Python int applied to a value: truncates a number, parses a string, converts a
boolean; everything else raises. -/
def pyIntOfValue : Value → Option Int
  | Value.num q => some (ratTrunc q)
  | Value.bool b => some (if b then 1 else 0)
  | Value.str s => parseIntStr s
  | _ => none

/-- True exactly when pyIntOfValue succeeds: a number, a boolean, or a numeric string. -/
def numericOrNumStr : Value → Bool
  | Value.num _ => true
  | Value.bool _ => true
  | Value.str s => (parseIntStr s).isSome
  | _ => false

/-- The timestamp rounding of transformers.py line 200: int(timestamp / 60 + 0.5) * 60,
with the Python int builtin truncating toward zero. -/
def timestampBucket (t : Rat) : Int := ratTrunc (ratDiv60PlusHalf t) * 60

/-- The deltaSeconds rounding of transformers.py lines 201-202, applied after the inner
int conversion: max(int(d / 60 + 0.5) * 60, 60). -/
def deltaSecondsBucket (d : Int) : Int :=
  max (ratTrunc (ratDiv60PlusHalf (d : Rat)) * 60) 60

/-- Zero padded two digit decimal rendering, as in strftime. -/
def pad2 (n : Nat) : String := if n < 10 then "0" ++ toString n else toString n

/-- Modelled from the spec: the proleptic Gregorian civil date (year, month, day) of a
day count relative to 1970-01-01, the standard era-based conversion used by calendar
libraries.  The datetime library performing this conversion is external to the
repository. -/
def civilFromDays (z : Int) : Int × Nat × Nat :=
  let z2 : Int := z + 719468
  let era : Int := Int.ediv z2 146097
  let doe : Nat := (Int.emod z2 146097).toNat
  let yoe : Nat := (doe - doe / 1460 + doe / 36524 - doe / 146096) / 365
  let y : Int := (yoe : Int) + era * 400
  let doy : Nat := doe - (365 * yoe + yoe / 4 - yoe / 100)
  let mp : Nat := (5 * doy + 2) / 153
  let d : Nat := doy - (153 * mp + 2) / 5 + 1
  let m : Nat := if mp < 10 then mp + 3 else mp - 9
  (if m ≤ 2 then y + 1 else y, m, d)

/-- Modelled from the spec: the Pacific Time civil representation of an epoch second
count, as produced by datetime.fromtimestamp with the US/Pacific zone of the external
pytz library.  The zone is modelled with the standard PST offset of minus eight hours,
the offset US/Pacific has at the winter instants exercised by the concrete claims; DST
shifts for other dates are not modelled. -/
def pacificParts (t : Int) : (Int × Nat × Nat) × Nat × Nat × Nat :=
  let loc : Int := t - 8 * 3600
  let days : Int := Int.ediv loc 86400
  let sod : Nat := (Int.emod loc 86400).toNat
  (civilFromDays days, sod / 3600, (sod % 3600) / 60, sod % 60)

/-- The strftime format with the date only. -/
def pacificDateStr (t : Int) : String :=
  let p := pacificParts t
  toString p.1.1 ++ "-" ++ pad2 p.1.2.1 ++ "-" ++ pad2 p.1.2.2

/-- The strftime format with date and time of day. -/
def pacificDateTimeStr (t : Int) : String :=
  pacificDateStr t ++ " " ++ pad2 (pacificParts t).2.1 ++ ":" ++ pad2 (pacificParts t).2.2.1
    ++ ":" ++ pad2 (pacificParts t).2.2.2

/-- The in-place mutations of transform_usage_metrics_record (transformers.py lines
195-207) on the record passed by the caller: pop the at-timestamp key, overwrite the
timestamp with its rounded bucket, overwrite the nested deltaSeconds, then append the two
derived Pacific Time strings.  The result is the state of the very record object the
caller passed in (nested metric dict included) after the call; none models a raised
exception. -/
def transformMutate (fields : Fields) : Option Fields :=
  let f1 := dictPop fields "@timestamp"
  match dictGet f1 "timestamp" with
  | none => none
  | some tv =>
    match asPyNumber tv with
    | none => none
    | some t =>
      let ts : Int := timestampBucket t
      let f2 := dictSet f1 "timestamp" (Value.num (ts : Rat))
      match dictGet f2 "metric" with
      | some (Value.obj m) =>
        match dictGet m "_deltaSeconds" with
        | none => none
        | some dv =>
          match pyIntOfValue dv with
          | none => none
          | some d =>
            let m2 := dictSet m "_deltaSeconds" (Value.num ((deltaSecondsBucket d : Int) : Rat))
            let f3 := dictSet f2 "metric" (Value.obj m2)
            let f4 := dictSet f3 "datetime_pt" (Value.str (pacificDateTimeStr ts))
            some (dictSet f4 "date_pt" (Value.str (pacificDateStr ts)))
      | some _ => none
      | none => none

/-- transform_usage_metrics_record (transformers.py lines 144-209): mutate the record in
place, then return the cleaned copy built by _clean_bigquery_keys.  A record that is not
a dict raises on the first attribute access. -/
def transform_usage_metrics_record (record : Value) (sel exc : List String) : Option Value :=
  match record with
  | Value.obj fields =>
      (transformMutate fields).map (fun fs => Value.obj (_clean_bigquery_keys sel exc none fs))
  | _ => none

/-- The filesystem seen by the job: an association list from path strings to decoded file
contents (a file is a list of records; compression and JSON framing are handled by
external libraries and elided). -/
abbrev FS := List (String × List Value)

def fsLookup : FS → String → Option (List Value)
  | [], _ => none
  | (p, c) :: tl, q => if p == q then some c else fsLookup tl q

/-- Creating or truncating a file at a path (gzip.open in write mode), keeping the
position of an existing entry. -/
def fsSet : FS → String → List Value → FS
  | [], p, c => [(p, c)]
  | (p0, c0) :: tl, p, c =>
      if p0 == p then (p0, c) :: tl else (p0, c0) :: fsSet tl p c

/-- os.unlink on an existing path. -/
def fsRemove (fs : FS) (p : String) : FS := fs.filter (fun e => !(e.1 == p))

/-- Whether a character list starts with another. -/
def strLeads : List Char → List Char → Bool
  | [], _ => true
  | _ :: _, [] => false
  | a :: as, b :: bs => a == b && strLeads as bs

/-- Whether a character list occurs contiguously inside another (the Python in operator
on strings). -/
def strInside (needle hay : List Char) : Bool :=
  match hay with
  | [] => needle.isEmpty
  | _ :: tl => strLeads needle hay || strInside needle tl

/-- Splits a character list at its last slash: the pair of the part before it and the
part after it.  When no slash occurs the first component is empty. -/
def splitPath : List Char → List Char × List Char
  | [] => ([], [])
  | c :: rest =>
      if (rest.contains '/') then
        let p := splitPath rest
        (c :: p.1, p.2)
      else if c == '/' then ([], rest)
      else ([], c :: rest)

/-- os.path.dirname for the relative and simple absolute paths the job builds. -/
def dirnameStr (s : String) : String := String.mk (splitPath s.data).1

/-- os.path.basename for the paths the job builds. -/
def basenameStr (s : String) : String := String.mk (splitPath s.data).2

/-- os.path.join for one relative component. -/
def pathJoin (d f : String) : String :=
  if d.data.isEmpty then f else String.mk (d.data ++ '/' :: f.data)

/-- The hidden sibling used for the atomic write (transformers.py line 88): the dirname
of the output joined with a dot prepended to its basename. -/
def tempPathOf (out : String) : String :=
  pathJoin (dirnameStr out) (String.mk ('.' :: (basenameStr out).data))

/-- The job configuration held by a Transformer after __init__: the select and exclude
field lists produced by splitFields, the two directory roots and the optional path
filter.  The parallelism degree is not represented: tasks are independent and the pool
is modelled by processing the task list. -/
structure Transformer where
  select_fields : List String
  exclude_fields : List String
  source_dir : String
  sink_dir : String
  path_contains : Option String

/-- Builds a Transformer the way __init__ does from a raw field spec. -/
def Transformer.ofSpec (source sink : String) (pc : Option String) (spec : List String) :
    Transformer :=
  ⟨(splitFields spec).1, (splitFields spec).2, source, sink, pc⟩

/-- The output path of transformers.py line 80: the sink directory joined with the input
path stripped of the source directory prefix and its trailing slash. -/
def outputPathOf (t : Transformer) (input_file : String) : String :=
  pathJoin t.sink_dir (String.mk (input_file.data.drop (t.source_dir.data.length + 1)))

/-- The exceptions distinguished by the handler of transformers.py lines 95-97. -/
inductive PyExc where
  | keyboardInterrupt : PyExc
  | error : PyExc
deriving DecidableEq

/-- The condition under which the handler prints its ERROR line (transformers.py lines
96-97): only when the caught exception is a KeyboardInterrupt. -/
def reportsFailure : PyExc → Bool
  | PyExc.keyboardInterrupt => true
  | PyExc.error => false

/-- Terminal state of one file task, with the flag recording whether a failure was
reported. -/
inductive FileOutcome where
  | skipped : FileOutcome
  | committed : FileOutcome
  | failed : Bool → FileOutcome
deriving DecidableEq

/-- The record loop of transform_usage_metrics (transformers.py lines 108-112): records
are transformed in order and accumulated; none from the record transform aborts the loop
with the lines written so far. -/
def transformRecords (sel exc : List String) : List Value → List Value → List Value × Bool
  | [], acc => (acc, true)
  | r :: rest, acc =>
      match transform_usage_metrics_record r sel exc with
      | none => (acc, false)
      | some r2 => transformRecords sel exc rest (acc ++ [r2])

/-- transform_usage_metrics (transformers.py lines 106-112) as a filesystem step: the
output handle is opened first, creating the temp file, then the input is decoded and
each record transformed and written.  The boolean reports whether the whole file was
transformed; on failure the temp file holds the lines written before the failure. -/
def transform_usage_metrics (fs : FS) (input temp : String) (sel exc : List String) :
    FS × Bool :=
  match fsLookup fs input with
  | none => (fsSet fs temp [], false)
  | some recs =>
      let res := transformRecords sel exc recs []
      (fsSet fs temp res.1, res.2)

/-- os.rename of the temp file onto the output path. -/
def fsRename (fs : FS) (temp out : String) : FS :=
  match fsLookup fs temp with
  | some c => fsSet (fsRemove fs temp) out c
  | none => fs

/-- The cleanup block of transformers.py lines 99-103: both unlinks live in one try with
a blanket pass, so when the first unlink raises (no temp file) the second is never
reached, and when the output does not exist the second raises into the pass. -/
def cleanupFailure (fs : FS) (temp out : String) : FS :=
  if (fsLookup fs temp).isSome then
    let fs1 := fsRemove fs temp
    if (fsLookup fs1 out).isSome then fsRemove fs1 out else fs1
  else fs

/-- Transformer._transform_file (transformers.py lines 78-103) specialized to the
transform_usage_metrics callable: skip when the output exists, otherwise write the temp
file and atomically rename it on success; on failure clean up and swallow the exception,
reporting it only under the inverted KeyboardInterrupt test.  The directory creation of
line 89 is a no-op in this path model. -/
def Transformer._transform_file (t : Transformer) (fs : FS) (input_file : String) :
    FS × FileOutcome :=
  let output_file := outputPathOf t input_file
  if (fsLookup fs output_file).isSome then (fs, FileOutcome.skipped)
  else
    let temp_file := tempPathOf output_file
    let step := transform_usage_metrics fs input_file temp_file t.select_fields t.exclude_fields
    if step.2 then (fsRename step.1 temp_file output_file, FileOutcome.committed)
    else (cleanupFailure step.1 temp_file output_file,
          FileOutcome.failed (reportsFailure PyExc.error))

/-- The discovery walk of Transformer.transform (transformers.py lines 53-56): every
path under the source directory whose containing directory contains the optional
filter. -/
def discover (t : Transformer) (fs : FS) : List String :=
  (fs.map Prod.fst).filter
    (fun p =>
      strLeads (t.source_dir.data ++ ['/']) p.data &&
      (match t.path_contains with
       | none => true
       | some c => strInside c.data (dirnameStr p).data))

/-- Transformer.transform (transformers.py lines 44-76): discover the data files and run
the per-file procedure over each; the pool runs tasks independently, modelled by
processing the task list in order.  The outcome list is the observable per-file
summary. -/
def Transformer.transform (t : Transformer) (fs : FS) : FS × List FileOutcome :=
  (discover t fs).foldl
    (fun acc f =>
      let r := Transformer._transform_file t acc.1 f
      (r.1, acc.2 ++ [r.2]))
    (fs, [])

/-! The next two checks describe keys of a dict reachable without passing through a list
value; values inside lists are not reached. -/

mutual

def valueKeysClean : Value → Bool
  | Value.obj fs => fieldsKeysClean fs
  | _ => true

def fieldsKeysClean : Fields → Bool
  | Fields.nil => true
  | Fields.cons k v tl => keyIsClean k && valueKeysClean v && fieldsKeysClean tl

end

/-- Whether the top level timestamp is absent or not numeric (claim C9). -/
def badTimestamp (fields : Fields) : Bool :=
  match dictGet fields "timestamp" with
  | none => true
  | some v => !(isNumericValue v)

/-- Whether the nested metric deltaSeconds is absent or not numeric, numeric strings
counting as numeric (claim C9). -/
def badDelta (fields : Fields) : Bool :=
  match dictGet fields "metric" with
  | some (Value.obj m) =>
      (match dictGet m "_deltaSeconds" with
       | none => true
       | some v => !(numericOrNumStr v))
  | some _ => true
  | none => true

/-- Whether a record fails the requirements of the usage metrics transform: a non dict
record fails on the first access. -/
def badRecord : Value → Bool
  | Value.obj fields => badTimestamp fields || badDelta fields
  | _ => true

/-- A small concrete usage metrics record used to exercise the transform. -/
def sampleRecord : Fields :=
  Fields.cons "@timestamp" (Value.str "x")
    (Fields.cons "timestamp" (Value.num 0)
      (Fields.cons "metric" (Value.obj (Fields.cons "_deltaSeconds" (Value.num 0) Fields.nil))
        Fields.nil))

/-- The state of sampleRecord after the in-place mutations of the transform. -/
def sampleMutated : Fields :=
  Fields.cons "timestamp" (Value.num 0)
    (Fields.cons "metric" (Value.obj (Fields.cons "_deltaSeconds" (Value.num 60) Fields.nil))
      (Fields.cons "datetime_pt" (Value.str "1969-12-31 16:00:00")
        (Fields.cons "date_pt" (Value.str "1969-12-31") Fields.nil)))

/-- The end to end input record of the spec scenario. -/
def e2eInput : Fields :=
  Fields.cons "@timestamp" (Value.str "x")
    (Fields.cons "timestamp" (Value.num 1234567)
      (Fields.cons "metric" (Value.obj (Fields.cons "_deltaSeconds" (Value.str "50")
        (Fields.cons "statefulset.kubernetes.io/pod-name" (Value.str "p") Fields.nil)))
        Fields.nil))

/-- The end to end output record of the spec scenario. -/
def e2eOutput : Fields :=
  Fields.cons "timestamp" (Value.num 1234560)
    (Fields.cons "metric" (Value.obj (Fields.cons "_deltaSeconds" (Value.num 60)
      (Fields.cons "statefulset_kubernetes_io_pod_name" (Value.str "p") Fields.nil)))
      (Fields.cons "datetime_pt" (Value.str "1970-01-14 22:56:00")
        (Fields.cons "date_pt" (Value.str "1970-01-14") Fields.nil)))

/-! Bridging lemmas identifying the kernel-computable arithmetic with the literal
formulas of the source. -/

theorem ratDiv60PlusHalf_eq (q : Rat) : ratDiv60PlusHalf q = q / 60 + 1 / 2 := by
  have hd : ((q.den : Rat)) ≠ 0 := by
    exact_mod_cast (Nat.cast_ne_zero (R := Rat)).mpr q.den_nz
  have hq : q = (q.num : Rat) / (q.den : Rat) := (Rat.num_div_den q).symm
  rw [ratDiv60PlusHalf, Rat.divInt_eq_div]
  push_cast
  conv_rhs => rw [hq]
  field_simp
  ring

theorem ratTrunc_eq (q : Rat) : ratTrunc q = if 0 ≤ q then ⌊q⌋ else ⌈q⌉ := by
  rw [ratTrunc]
  by_cases h : 0 ≤ q
  · rw [if_pos h, Rat.floor_def]
    exact Int.tdiv_eq_ediv (by exact_mod_cast Rat.num_nonneg.mpr h) (by positivity)
  · rw [if_neg h]
    have h2 : 0 ≤ (-q).num := by
      rw [Rat.num_nonneg]
      linarith [lt_of_not_le h]
    have h3 : ⌈q⌉ = -⌊-q⌋ := by rw [Int.floor_neg]; ring
    rw [h3, Rat.floor_def, Rat.neg_num, Rat.neg_den]
    rw [show q.num = -(-q.num) by ring, Int.neg_tdiv]
    rw [Int.tdiv_eq_ediv (by simpa using h2) (by positivity)]
    simp

/-! Association list lemmas for the dict model. -/

theorem dictGet_none_of_hasStr_false : ∀ (fs : Fields) (k : String),
    hasStr (keysOf fs) k = false → dictGet fs k = none
  | Fields.nil, _, _ => rfl
  | Fields.cons k0 v tl, k, h => by
      rw [keysOf, hasStr] at h
      rcases Bool.or_eq_false_iff.mp h with ⟨h1, h2⟩
      simp [dictGet, h1, dictGet_none_of_hasStr_false tl k h2]

theorem dictGet_dictPop_ne : ∀ (fs : Fields) (k k2 : String), k2 ≠ k →
    dictGet (dictPop fs k) k2 = dictGet fs k2
  | Fields.nil, _, _, _ => rfl
  | Fields.cons k0 v tl, k, k2, h => by
      by_cases h0 : (k0 == k) = true
      · have hk0 : k0 = k := beq_iff_eq.mp h0
        have hne : (k0 == k2) = false := by
          rw [hk0]
          exact beq_eq_false_iff_ne.mpr (fun hh => h hh.symm)
        simp [dictPop, dictGet, h0, hne]
      · simp only [Bool.not_eq_true] at h0
        simp [dictPop, dictGet, h0, dictGet_dictPop_ne tl k k2 h]

theorem dictGet_dictPop_self : ∀ (fs : Fields) (k : String), keysNodup fs = true →
    dictGet (dictPop fs k) k = none
  | Fields.nil, _, _ => rfl
  | Fields.cons k0 v tl, k, h => by
      rw [keysNodup, Bool.and_eq_true] at h
      by_cases h0 : (k0 == k) = true
      · have hk0 : k0 = k := beq_iff_eq.mp h0
        have hmem : hasStr (keysOf tl) k = false := by
          rw [← hk0]
          simpa using h.1
        simp [dictPop, h0, dictGet_none_of_hasStr_false tl k hmem]
      · simp only [Bool.not_eq_true] at h0
        simp [dictPop, dictGet, h0, dictGet_dictPop_self tl k h.2]

theorem dictGet_dictSet_self : ∀ (fs : Fields) (k : String) (v : Value),
    dictGet (dictSet fs k v) k = some v
  | Fields.nil, k, v => by simp [dictSet, dictGet]
  | Fields.cons k0 v0 tl, k, v => by
      by_cases h0 : (k0 == k) = true
      · simp [dictSet, dictGet, h0]
      · simp only [Bool.not_eq_true] at h0
        simp [dictSet, dictGet, h0, dictGet_dictSet_self tl k v]

theorem dictGet_dictSet_ne : ∀ (fs : Fields) (k : String) (v : Value) (k2 : String),
    k2 ≠ k → dictGet (dictSet fs k v) k2 = dictGet fs k2
  | Fields.nil, k, v, k2, h => by
      have hne : (k == k2) = false := beq_eq_false_iff_ne.mpr (fun hh => h hh.symm)
      simp [dictSet, dictGet, hne]
  | Fields.cons k0 v0 tl, k, v, k2, h => by
      by_cases h0 : (k0 == k) = true
      · have hk0 : k0 = k := beq_iff_eq.mp h0
        have hne : (k0 == k2) = false := by
          rw [hk0]
          exact beq_eq_false_iff_ne.mpr (fun hh => h hh.symm)
        simp [dictSet, dictGet, h0, hne]
      · simp only [Bool.not_eq_true] at h0
        by_cases h1 : (k0 == k2) = true
        · simp [dictSet, dictGet, h0, h1]
        · simp only [Bool.not_eq_true] at h1
          simp [dictSet, dictGet, h0, h1, dictGet_dictSet_ne tl k v k2 h]

/-! Key tracking through dict replay, used for the field selection claims. -/

theorem keysOf_dictSet_mem : ∀ (fs : Fields) (key : String) (v : Value) (k : String),
    k ∈ keysOf (dictSet fs key v) → k ∈ keysOf fs ∨ k = key
  | Fields.nil, key, v, k, h => by
      simp [dictSet, keysOf] at h
      exact Or.inr h
  | Fields.cons k0 v0 tl, key, v, k, h => by
      by_cases h0 : (k0 == key) = true
      · simp only [dictSet, h0, if_true, keysOf, List.mem_cons] at h
        rcases h with h | h
        · exact Or.inl (by simp [keysOf, h])
        · exact Or.inl (by simp [keysOf]; exact Or.inr h)
      · simp only [Bool.not_eq_true] at h0
        simp only [dictSet, h0, Bool.false_eq_true, if_false, keysOf, List.mem_cons] at h
        rcases h with h | h
        · exact Or.inl (by simp [keysOf, h])
        · rcases keysOf_dictSet_mem tl key v k h with h2 | h2
          · exact Or.inl (by simp [keysOf]; exact Or.inr h2)
          · exact Or.inr h2

theorem keysOf_replayAux_mem : ∀ (l acc : Fields) (k : String),
    k ∈ keysOf (dictReplayAux acc l) → k ∈ keysOf acc ∨ k ∈ keysOf l
  | Fields.nil, _, _, h => Or.inl h
  | Fields.cons k0 v tl, acc, k, h => by
      rcases keysOf_replayAux_mem tl (dictSet acc k0 v) k h with h2 | h2
      · rcases keysOf_dictSet_mem acc k0 v k h2 with h3 | h3
        · exact Or.inl h3
        · exact Or.inr (by simp [keysOf, h3])
      · exact Or.inr (by simp [keysOf]; exact Or.inr h2)

/-! Lemmas about the select mode of claim C1. -/

theorem cleanFields_nested_nil : ∀ fs : Fields,
    cleanFields ["metric.tenant"] ["@version"] (some "metric.tenant") fs = Fields.nil
  | Fields.nil => rfl
  | Fields.cons k v tl => by
      have hne : ("metric.tenant" == fullKeyOf (some "metric.tenant") k) = false := by
        apply beq_eq_false_iff_ne.mpr
        intro h
        have hl := congrArg String.length h
        rw [fullKeyOf, String.length_append, String.length_append] at hl
        have h13 : "metric.tenant".length = 13 := rfl
        have h1 : ".".length = 1 := rfl
        rw [h13, h1] at hl
        omega
      have hdrop : dropKey ["metric.tenant"] ["@version"]
          (fullKeyOf (some "metric.tenant") k) = true := by
        simp [dropKey, hasStr, hne]
      simp [cleanFields, hdrop, cleanFields_nested_nil tl]

theorem cleanFields_c1_keys : ∀ (fs : Fields) (k : String),
    k ∈ keysOf (cleanFields ["metric.tenant"] ["@version"] none fs) → k = "metric_tenant"
  | Fields.nil, k, h => by simp [cleanFields, keysOf] at h
  | Fields.cons k0 v tl, k, h => by
      cases hd : dropKey ["metric.tenant"] ["@version"] (fullKeyOf none k0) with
      | true =>
          simp only [cleanFields, hd, if_true] at h
          exact cleanFields_c1_keys tl k h
      | false =>
          have h1 : ("metric.tenant" == k0) = true := by
            by_contra hc
            simp only [Bool.not_eq_true] at hc
            rw [dropKey] at hd
            simp [hasStr, fullKeyOf, hc] at hd
          have hk0 : k0 = "metric.tenant" := (beq_iff_eq.mp h1).symm
          simp only [cleanFields, hd, Bool.false_eq_true, if_false, keysOf, List.mem_cons] at h
          rcases h with h2 | h2
          · rw [h2, hk0]
            rfl
          · exact cleanFields_c1_keys tl k h2

/-- C1: for the field spec with minus at-version and metric.tenant, construction yields
select metric.tenant and exclude at-version as claimed, but the select filter matches
the full path of each key at its own level, so the top level key metric (full path
metric, not selected) is dropped along with its whole subtree: the record with tenant
nested under metric filters to the empty record, and metric.tenant does not survive.
Only a key whose own full path is literally metric.tenant survives, as sanitized key
metric_tenant, with its nested content emptied. -/
theorem c1_select_mode :
    splitFields ["-@version", "metric.tenant"] = (["metric.tenant"], ["@version"])
    ∧ (∀ (fs : Fields) (k : String),
        k ∈ keysOf (_clean_bigquery_keys ["metric.tenant"] ["@version"] none fs) →
        k = "metric_tenant")
    ∧ (∀ fs : Fields,
        cleanFields ["metric.tenant"] ["@version"] (some "metric.tenant") fs = Fields.nil) := by
  refine ⟨rfl, ?_, cleanFields_nested_nil⟩
  intro fs k h
  rcases keysOf_replayAux_mem (cleanFields ["metric.tenant"] ["@version"] none fs)
      Fields.nil k h with h2 | h2
  · simp [keysOf] at h2
  · exact cleanFields_c1_keys fs k h2

/-- C1 counterexample: with the claimed sets, the record holding tenant nested under
metric filters to the empty record, so the node at dotted path metric.tenant is not
kept, contrary to the claim. -/
theorem c1_cex :
    splitFields ["-@version", "metric.tenant"] = (["metric.tenant"], ["@version"])
    ∧ _clean_bigquery_keys ["metric.tenant"] ["@version"] none
        (Fields.cons "metric" (Value.obj (Fields.cons "tenant" (Value.str "t") Fields.nil))
          Fields.nil)
      = Fields.nil := ⟨rfl, rfl⟩

/-- C1 witness. -/
theorem c1_witness :
    ("metric_tenant" ∈ keysOf (_clean_bigquery_keys ["metric.tenant"] ["@version"] none
        (Fields.cons "metric.tenant" (Value.str "v") Fields.nil)))
    ∧ "metric_tenant" = "metric_tenant" :=
  ⟨by decide, c1_select_mode.2.1 (Fields.cons "metric.tenant" (Value.str "v") Fields.nil)
    "metric_tenant" (by decide)⟩

/-- C3: construction does not always produce disjoint select and exclude sets: the two
sets intersect exactly when the spec holds both a path and a dash prefixed spelling of
the same path, as with x and -x. -/
theorem c3_partition : ∀ (spec : List String) (p : String),
    p ∈ (splitFields spec).1 → p ∈ (splitFields spec).2 →
    (p ∈ spec ∧ startsDash p = false
      ∧ ∃ q, q ∈ spec ∧ startsDash q = true ∧ stripDashes q = p) := by
  intro spec p h1 h2
  by_cases he : spec.isEmpty
  · rw [splitFields, if_pos he] at h2
    simp at h2
  · rw [splitFields, if_neg he] at h1 h2
    rcases List.mem_filter.mp h1 with ⟨hmem, hdash⟩
    rcases List.mem_map.mp h2 with ⟨q, hq, hqs⟩
    rcases List.mem_filter.mp hq with ⟨hqmem, hqdash⟩
    exact ⟨hmem, by simpa using hdash, q, hqmem, hqdash, hqs⟩

/-- C3 counterexample: the spec holding x and -x yields x in the select set and x in
the exclude set, so the partition is not disjoint. -/
theorem c3_cex :
    "x" ∈ (splitFields ["x", "-x"]).1 ∧ "x" ∈ (splitFields ["x", "-x"]).2 := by
  constructor <;> decide

/-- C3 witness. -/
theorem c3_witness :
    ("x" ∈ (splitFields ["x", "-x"]).1) ∧ ("x" ∈ (splitFields ["x", "-x"]).2)
    ∧ ("x" ∈ ["x", "-x"] ∧ startsDash "x" = false
        ∧ ∃ q, q ∈ ["x", "-x"] ∧ startsDash q = true ∧ stripDashes q = "x") :=
  ⟨by decide, by decide, c3_partition ["x", "-x"] "x" (by decide) (by decide)⟩

/-! Sanitization lemmas for claim C5. -/

theorem allValid_sanitized : ∀ l : List Char,
    (l.map (fun c => if validKeyChar c then c else '_')).all validKeyChar = true
  | [] => rfl
  | c :: tl => by
      have h2 := allValid_sanitized tl
      by_cases hc : validKeyChar c = true
      · simpa [hc] using h2
      · simp only [Bool.not_eq_true] at hc
        simpa [hc, show validKeyChar '_' = true by decide] using h2

theorem keyIsClean_sanitizeKey (s : String) : keyIsClean (sanitizeKey s) = true :=
  allValid_sanitized s.data

theorem fieldsKeysClean_dictSet : ∀ (fs : Fields) (k : String) (v : Value),
    fieldsKeysClean fs = true → keyIsClean k = true → valueKeysClean v = true →
    fieldsKeysClean (dictSet fs k v) = true
  | Fields.nil, k, v, _, hk, hv => by simp [dictSet, fieldsKeysClean, hk, hv]
  | Fields.cons k0 v0 tl, k, v, hf, hk, hv => by
      have hf2 : keyIsClean k0 = true ∧ valueKeysClean v0 = true
          ∧ fieldsKeysClean tl = true := by
        simpa [fieldsKeysClean, Bool.and_eq_true, and_assoc] using hf
      by_cases h0 : (k0 == k) = true
      · simp [dictSet, h0, fieldsKeysClean, hf2.1, hv, hf2.2.2]
      · simp only [Bool.not_eq_true] at h0
        simp [dictSet, h0, fieldsKeysClean, hf2.1, hf2.2.1,
          fieldsKeysClean_dictSet tl k v hf2.2.2 hk hv]

theorem fieldsKeysClean_replayAux : ∀ (l acc : Fields),
    fieldsKeysClean acc = true → fieldsKeysClean l = true →
    fieldsKeysClean (dictReplayAux acc l) = true
  | Fields.nil, _, ha, _ => ha
  | Fields.cons k v tl, acc, ha, hl => by
      have hl2 : keyIsClean k = true ∧ valueKeysClean v = true
          ∧ fieldsKeysClean tl = true := by
        simpa [fieldsKeysClean, Bool.and_eq_true, and_assoc] using hl
      exact fieldsKeysClean_replayAux tl (dictSet acc k v)
        (fieldsKeysClean_dictSet acc k v ha hl2.1 hl2.2.1) hl2.2.2

mutual

theorem valueKeysClean_cleanValue (sel exc : List String) (full : String) :
    ∀ v : Value, valueKeysClean (cleanValue sel exc full v) = true
  | Value.null => rfl
  | Value.bool _ => rfl
  | Value.num _ => rfl
  | Value.str _ => rfl
  | Value.arr _ => rfl
  | Value.obj fs =>
      fieldsKeysClean_replayAux (cleanFields sel exc (some full) fs) Fields.nil rfl
        (fieldsKeysClean_cleanFields sel exc (some full) fs)

theorem fieldsKeysClean_cleanFields (sel exc : List String) (pk : Option String) :
    ∀ fs : Fields, fieldsKeysClean (cleanFields sel exc pk fs) = true
  | Fields.nil => rfl
  | Fields.cons k v tl => by
      by_cases hd : dropKey sel exc (fullKeyOf pk k) = true
      · simpa [cleanFields, hd] using fieldsKeysClean_cleanFields sel exc pk tl
      · simp only [Bool.not_eq_true] at hd
        simp [cleanFields, hd, fieldsKeysClean, keyIsClean_sanitizeKey,
          valueKeysClean_cleanValue sel exc (fullKeyOf pk k) v,
          fieldsKeysClean_cleanFields sel exc pk tl]

end

/-- C5: every key of the cleaned record reachable through record nesting is sanitized
to the valid class, for every select and exclude configuration and at every depth, and
the concrete kubernetes key sanitizes as documented; but the recursion enters only
values that are records, so records nested inside sequences are passed through with
their keys untouched (see the counterexample). -/
theorem c5_sanitize_depth :
    (∀ (sel exc : List String) (pk : Option String) (fs : Fields),
      fieldsKeysClean (_clean_bigquery_keys sel exc pk fs) = true)
    ∧ sanitizeKey "statefulset.kubernetes.io/pod-name"
        = "statefulset_kubernetes_io_pod_name" :=
  ⟨fun sel exc pk fs =>
    fieldsKeysClean_replayAux (cleanFields sel exc pk fs) Fields.nil rfl
      (fieldsKeysClean_cleanFields sel exc pk fs), rfl⟩

/-- C5 counterexample: a record nested inside a sequence keeps its dirty key b.c after
cleaning, so sanitization does not reach records nested inside sequences. -/
theorem c5_cex :
    _clean_bigquery_keys [] [] none
      (Fields.cons "a"
        (Value.arr (VList.cons
          (Value.obj (Fields.cons "b.c" (Value.num 1) Fields.nil)) VList.nil))
        Fields.nil)
    = Fields.cons "a"
        (Value.arr (VList.cons
          (Value.obj (Fields.cons "b.c" (Value.num 1) Fields.nil)) VList.nil))
        Fields.nil := rfl

/-- C10: when two sibling keys sanitize to the same string and both survive filtering,
the later assignment overwrites the earlier entry at its original position, so the
output node has one entry where the input had two, holding the later value. -/
theorem c10_collision : ∀ (k1 k2 : String) (v1 v2 : Value),
    sanitizeKey k1 = sanitizeKey k2 →
    _clean_bigquery_keys [] [] none (Fields.cons k1 v1 (Fields.cons k2 v2 Fields.nil))
      = Fields.cons (sanitizeKey k1) (cleanValue [] [] k2 v2) Fields.nil := by
  intro k1 k2 v1 v2 h
  have hb : (sanitizeKey k1 == sanitizeKey k2) = true := beq_iff_eq.mpr h
  show dictSet (Fields.cons (sanitizeKey k1) (cleanValue [] [] k1 v1) Fields.nil)
      (sanitizeKey k2) (cleanValue [] [] k2 v2) = _
  simp [dictSet, hb]

/-- C10 witness. -/
theorem c10_witness :
    sanitizeKey "pod.name" = sanitizeKey "pod_name"
    ∧ _clean_bigquery_keys [] [] none
        (Fields.cons "pod.name" (Value.str "a")
          (Fields.cons "pod_name" (Value.str "b") Fields.nil))
      = Fields.cons "pod_name" (Value.str "b") Fields.nil :=
  ⟨rfl, c10_collision "pod.name" "pod_name" (Value.str "a") (Value.str "b") rfl⟩

/-! Characterization of a successful in-place mutation of the record transform. -/

theorem transformMutate_some (fields m : Fields) (h : transformMutate fields = some m) :
    ∃ tv t mfs dv d,
      dictGet (dictPop fields "@timestamp") "timestamp" = some tv
      ∧ asPyNumber tv = some t
      ∧ dictGet (dictSet (dictPop fields "@timestamp") "timestamp"
          (Value.num ((timestampBucket t : Int) : Rat))) "metric" = some (Value.obj mfs)
      ∧ dictGet mfs "_deltaSeconds" = some dv
      ∧ pyIntOfValue dv = some d
      ∧ m = dictSet (dictSet (dictSet
            (dictSet (dictPop fields "@timestamp") "timestamp"
              (Value.num ((timestampBucket t : Int) : Rat)))
            "metric" (Value.obj (dictSet mfs "_deltaSeconds"
              (Value.num ((deltaSecondsBucket d : Int) : Rat)))))
            "datetime_pt" (Value.str (pacificDateTimeStr (timestampBucket t))))
            "date_pt" (Value.str (pacificDateStr (timestampBucket t))) := by
  cases h1 : dictGet (dictPop fields "@timestamp") "timestamp" with
  | none => simp [transformMutate, h1] at h
  | some tv =>
    cases h2 : asPyNumber tv with
    | none => simp [transformMutate, h1, h2] at h
    | some t =>
      cases h3 : dictGet (dictSet (dictPop fields "@timestamp") "timestamp"
          (Value.num ((timestampBucket t : Int) : Rat))) "metric" with
      | none => simp [transformMutate, h1, h2, h3] at h
      | some mv =>
        cases mv with
        | null => simp [transformMutate, h1, h2, h3] at h
        | bool b => simp [transformMutate, h1, h2, h3] at h
        | num q => simp [transformMutate, h1, h2, h3] at h
        | str s => simp [transformMutate, h1, h2, h3] at h
        | arr xs => simp [transformMutate, h1, h2, h3] at h
        | obj mfs =>
          cases h4 : dictGet mfs "_deltaSeconds" with
          | none => simp [transformMutate, h1, h2, h3, h4] at h
          | some dv =>
            cases h5 : pyIntOfValue dv with
            | none => simp [transformMutate, h1, h2, h3, h4, h5] at h
            | some d =>
              simp only [transformMutate, h1, h2, h3, h4, h5, Option.some.injEq] at h
              exact ⟨tv, t, mfs, dv, d, rfl, h2, h3, h4, h5, h.symm⟩

/-! Failure lemmas for the record transform. -/

theorem asPyNumber_eq_none (v : Value) (h : isNumericValue v = false) :
    asPyNumber v = none := by
  cases v <;> simp_all [asPyNumber, isNumericValue]

theorem pyIntOfValue_eq_none (v : Value) (h : numericOrNumStr v = false) :
    pyIntOfValue v = none := by
  cases v with
  | str s =>
      rw [numericOrNumStr] at h
      rw [pyIntOfValue]
      cases hp : parseIntStr s with
      | none => rfl
      | some n => rw [hp] at h; simp at h
  | null => rfl
  | bool b => simp [numericOrNumStr] at h
  | num q => simp [numericOrNumStr] at h
  | arr xs => rfl
  | obj fs => rfl

theorem transformMutate_none_of_bad (fields : Fields)
    (h : (badTimestamp fields || badDelta fields) = true) :
    transformMutate fields = none := by
  have hpop : dictGet (dictPop fields "@timestamp") "timestamp"
      = dictGet fields "timestamp" :=
    dictGet_dictPop_ne fields "@timestamp" "timestamp" (by decide)
  cases h1 : dictGet fields "timestamp" with
  | none => simp only [transformMutate, hpop, h1]
  | some tv =>
    cases h2 : asPyNumber tv with
    | none => simp only [transformMutate, hpop, h1, h2]
    | some t =>
      have hbd : badDelta fields = true := by
        rcases Bool.or_eq_true_iff.mp h with hb | hb
        · rw [badTimestamp, h1] at hb
          have : isNumericValue tv = false := by simpa using hb
          rw [asPyNumber_eq_none tv this] at h2
          cases h2
        · exact hb
      have hmet : dictGet (dictSet (dictPop fields "@timestamp") "timestamp"
          (Value.num ((timestampBucket t : Int) : Rat))) "metric"
          = dictGet fields "metric" := by
        rw [dictGet_dictSet_ne _ _ _ _ (by decide),
          dictGet_dictPop_ne _ _ _ (by decide)]
      cases h3 : dictGet fields "metric" with
      | none => simp only [transformMutate, hpop, h1, h2, hmet, h3]
      | some mv =>
        cases mv with
        | null => simp only [transformMutate, hpop, h1, h2, hmet, h3]
        | bool b => simp only [transformMutate, hpop, h1, h2, hmet, h3]
        | num q => simp only [transformMutate, hpop, h1, h2, hmet, h3]
        | str s => simp only [transformMutate, hpop, h1, h2, hmet, h3]
        | arr xs => simp only [transformMutate, hpop, h1, h2, hmet, h3]
        | obj mfs =>
          simp only [badDelta, h3] at hbd
          cases h4 : dictGet mfs "_deltaSeconds" with
          | none => simp only [transformMutate, hpop, h1, h2, hmet, h3, h4]
          | some dv =>
            simp only [h4] at hbd
            have hnum : numericOrNumStr dv = false := by simpa using hbd
            simp only [transformMutate, hpop, h1, h2, hmet, h3, h4,
              pyIntOfValue_eq_none dv hnum]

theorem transform_none_of_badRecord (sel exc : List String) (r : Value)
    (h : badRecord r = true) : transform_usage_metrics_record r sel exc = none := by
  cases r with
  | obj fields =>
      rw [transform_usage_metrics_record,
        transformMutate_none_of_bad fields (by simpa [badRecord] using h)]
      rfl
  | null => rfl
  | bool b => rfl
  | num q => rfl
  | str s => rfl
  | arr xs => rfl

/-- C2 (amended): the record transform mutates the input record in place before
building the cleaned copy: on success the state of the record the caller passed in has
lost the at-timestamp key, so any input that held that key is no longer equal to its
original state after the call; only the key cleaning step returns a fresh dict. -/
theorem c2_mutation : ∀ (fields m : Fields), keysNodup fields = true →
    transformMutate fields = some m →
    (dictGet m "@timestamp" = none
     ∧ (dictGet fields "@timestamp" ≠ none → m ≠ fields)) := by
  intro fields m hnd h
  rcases transformMutate_some fields m h with ⟨tv, t, mfs, dv, d, h1, h2, h3, h4, h5, hm⟩
  have hts : dictGet m "@timestamp" = none := by
    rw [hm]
    rw [dictGet_dictSet_ne _ _ _ _ (by decide)]
    rw [dictGet_dictSet_ne _ _ _ _ (by decide)]
    rw [dictGet_dictSet_ne _ _ _ _ (by decide)]
    rw [dictGet_dictSet_ne _ _ _ _ (by decide)]
    exact dictGet_dictPop_self fields "@timestamp" hnd
  refine ⟨hts, fun hne heq => ?_⟩
  rw [heq] at hts
  exact hne hts

/-- C2 counterexample: on the concrete sample record holding an at-timestamp key the
in-place mutation changes the record, so the state of the input after the call differs
from the input, contrary to the no-mutation claim. -/
theorem c2_cex : transformMutate sampleRecord ≠ some sampleRecord := by
  intro h
  have h5 : (some (none : Option Value)) = some (some (Value.str "x")) :=
    congrArg (fun o => Option.map (fun fs => dictGet fs "@timestamp") o) h
  exact Option.noConfusion (Option.some.inj h5)

/-- C2 witness. -/
theorem c2_witness :
    keysNodup sampleRecord = true
    ∧ transformMutate sampleRecord = some sampleMutated
    ∧ (dictGet sampleMutated "@timestamp" = none
       ∧ (dictGet sampleRecord "@timestamp" ≠ none → sampleMutated ≠ sampleRecord)) :=
  ⟨rfl, rfl, c2_mutation sampleRecord sampleMutated rfl rfl⟩

/-- C7: the end to end scenario of the spec: the concrete input record with the string
valued at-timestamp, integer timestamp 1234567 and nested deltaSeconds string 50
transforms, with no field spec, to the record with timestamp 1234560, deltaSeconds 60,
the kubernetes key sanitized, the two derived Pacific Time strings appended, and no
at-timestamp key. -/
theorem c7_end_to_end :
    transform_usage_metrics_record (Value.obj e2eInput) [] [] = some (Value.obj e2eOutput)
    ∧ dictGet e2eOutput "@timestamp" = none := ⟨rfl, rfl⟩

/-! Floor arithmetic for the rounding claims. -/

theorem floor_shift (x : Rat) : ⌊x / 60 + 1 / 2⌋ = ⌊(x + 30) / 60⌋ := by
  congr 1
  ring

theorem floor_div60_floor (d : Rat) : ⌊((⌊d⌋ : Rat) + 30) / 60⌋ = ⌊(d + 30) / 60⌋ := by
  set n := ⌊(d + 30) / 60⌋ with hn
  have h60 : (0 : Rat) < 60 := by norm_num
  have hub : (d + 30) / 60 < n + 1 := Int.lt_floor_add_one _
  have hlb : (n : Rat) ≤ (d + 30) / 60 := Int.floor_le _
  have hub2 : d + 30 < (n + 1) * 60 := by
    have h := (div_lt_iff₀ h60).mp hub
    linarith
  have hlb2 : (n : Rat) * 60 ≤ d + 30 := (le_div_iff₀ h60).mp hlb
  have hfl : ((60 * n - 30 : Int) : Rat) ≤ d := by push_cast; linarith
  have hfl2 : (60 * n - 30 : Int) ≤ ⌊d⌋ := Int.le_floor.mpr hfl
  have hfu : (⌊d⌋ : Rat) ≤ d := Int.floor_le d
  have hfu3 : ⌊d⌋ < 60 * n + 30 := by
    have hfu2 : (⌊d⌋ : Rat) < ((60 * n + 30 : Int) : Rat) := by push_cast; linarith
    exact_mod_cast hfu2
  rw [Int.floor_eq_iff]
  constructor
  · rw [le_div_iff₀ h60]
    have h2 : ((60 * n - 30 : Int) : Rat) ≤ (⌊d⌋ : Rat) := by exact_mod_cast hfl2
    push_cast at h2 ⊢
    linarith
  · rw [div_lt_iff₀ h60]
    have h2 : ((⌊d⌋ : Int) : Rat) < ((60 * n + 30 : Int) : Rat) := by exact_mod_cast hfu3
    push_cast at h2 ⊢
    linarith

theorem timestampBucket_eq_floor (t : Rat) (ht : -30 ≤ t) :
    timestampBucket t = ⌊t / 60 + 1 / 2⌋ * 60 := by
  rw [timestampBucket, ratDiv60PlusHalf_eq, ratTrunc_eq]
  have h0 : (0 : Rat) ≤ t / 60 + 1 / 2 := by
    rw [show t / 60 + 1 / 2 = (t + 30) / 60 by ring]
    apply div_nonneg (by linarith) (by norm_num)
  rw [if_pos h0]

theorem deltaBucket_eq_floor (d : Rat) :
    deltaSecondsBucket (ratTrunc d) = max (⌊d / 60 + 1 / 2⌋ * 60) 60 := by
  by_cases hd : (30 : Rat) ≤ d
  · have hd0 : (0 : Rat) ≤ d := by linarith
    have htd : ratTrunc d = ⌊d⌋ := by rw [ratTrunc_eq, if_pos hd0]
    rw [deltaSecondsBucket, htd, ratDiv60PlusHalf_eq, ratTrunc_eq]
    have h30 : (30 : Int) ≤ ⌊d⌋ := by
      rw [Int.le_floor]
      exact_mod_cast hd
    have hnn : (0 : Rat) ≤ (⌊d⌋ : Rat) := by
      have : (0 : Int) ≤ ⌊d⌋ := by omega
      exact_mod_cast this
    have hpos : (0 : Rat) ≤ (⌊d⌋ : Rat) / 60 + 1 / 2 := by positivity
    rw [if_pos hpos, floor_shift ((⌊d⌋ : Int) : Rat), floor_shift d, floor_div60_floor]
  · have hdlt : d < 30 := lt_of_not_le hd
    have hrhs : ⌊d / 60 + 1 / 2⌋ ≤ 0 := by
      have h1 : d / 60 + 1 / 2 < 1 := by
        rw [show d / 60 + 1 / 2 = (d + 30) / 60 by ring,
          div_lt_one (by norm_num : (0 : Rat) < 60)]
        linarith
      have h2 : ⌊d / 60 + 1 / 2⌋ < 1 :=
        Int.floor_lt.mpr (by exact_mod_cast h1)
      omega
    have htd : ratTrunc d ≤ 29 := by
      rw [ratTrunc_eq]
      by_cases h0 : (0 : Rat) ≤ d
      · rw [if_pos h0]
        have : ⌊d⌋ < 30 := Int.floor_lt.mpr (by exact_mod_cast hdlt)
        omega
      · rw [if_neg h0]
        have : ⌈d⌉ ≤ 0 := Int.ceil_le.mpr (by exact_mod_cast le_of_lt (lt_of_not_le h0))
        omega
    have hlhs : ratTrunc (ratDiv60PlusHalf ((ratTrunc d : Int) : Rat)) ≤ 0 := by
      rw [ratDiv60PlusHalf_eq, ratTrunc_eq]
      have htd2 : ((ratTrunc d : Int) : Rat) ≤ 29 := by exact_mod_cast htd
      have hq : ((ratTrunc d : Int) : Rat) / 60 + 1 / 2 < 1 := by
        rw [show ((ratTrunc d : Int) : Rat) / 60 + 1 / 2
            = (((ratTrunc d : Int) : Rat) + 30) / 60 by ring,
          div_lt_one (by norm_num : (0 : Rat) < 60)]
        linarith
      by_cases h0 : (0 : Rat) ≤ ((ratTrunc d : Int) : Rat) / 60 + 1 / 2
      · rw [if_pos h0]
        have h3 : ⌊((ratTrunc d : Int) : Rat) / 60 + 1 / 2⌋ < 1 :=
          Int.floor_lt.mpr (by rw [Int.cast_one]; exact hq)
        omega
      · rw [if_neg h0]
        have h3 : ⌈((ratTrunc d : Int) : Rat) / 60 + 1 / 2⌉ ≤ 0 :=
          Int.ceil_le.mpr (by rw [Int.cast_zero]; exact le_of_lt (lt_of_not_le h0))
        omega
    rw [deltaSecondsBucket]
    rw [max_eq_right (by omega : ratTrunc (ratDiv60PlusHalf ((ratTrunc d : Int) : Rat)) * 60 ≤ 60)]
    rw [max_eq_right (by omega : ⌊d / 60 + 1 / 2⌋ * 60 ≤ 60)]

/-- C4 (amended): the bucket computed by the transform uses the Python int builtin,
which truncates toward zero, so the floor form of the claim holds for every timestamp
of at least minus thirty (in particular every nonnegative epoch second count) but not
below (see the counterexample); the deltaSeconds law holds for every number exactly as
claimed because the final clamp to sixty absorbs the difference, and numeric strings
are parsed first; the transform writes these bucket values into the timestamp and the
nested deltaSeconds fields, and the concrete values of the claim hold. -/
theorem c4_rounding :
    (∀ t : Rat, -30 ≤ t → timestampBucket t = ⌊t / 60 + 1 / 2⌋ * 60)
    ∧ (∀ d : Rat, deltaSecondsBucket (ratTrunc d) = max (⌊d / 60 + 1 / 2⌋ * 60) 60)
    ∧ (∀ (fields m : Fields) (tv : Value) (t : Rat),
        transformMutate fields = some m →
        dictGet fields "timestamp" = some tv → asPyNumber tv = some t →
        dictGet m "timestamp" = some (Value.num ((timestampBucket t : Int) : Rat)))
    ∧ (∀ (fields m mfs0 : Fields) (dv0 : Value) (d0 : Int),
        transformMutate fields = some m →
        dictGet fields "metric" = some (Value.obj mfs0) →
        dictGet mfs0 "_deltaSeconds" = some dv0 → pyIntOfValue dv0 = some d0 →
        ∃ mfs, dictGet m "metric" = some (Value.obj mfs)
          ∧ dictGet mfs "_deltaSeconds"
              = some (Value.num ((deltaSecondsBucket d0 : Int) : Rat)))
    ∧ timestampBucket 1234567 = 1234560
    ∧ pyIntOfValue (Value.str "50") = some 50
    ∧ deltaSecondsBucket 50 = 60 := by
  refine ⟨timestampBucket_eq_floor, deltaBucket_eq_floor, ?_, ?_, by decide, by decide,
    by decide⟩
  · intro fields m tv t h htv hnum
    rcases transformMutate_some fields m h with ⟨tv2, t2, mfs, dv, d, h1, h2, h3, h4, h5, hm⟩
    rw [dictGet_dictPop_ne _ _ _ (by decide), htv] at h1
    obtain rfl := Option.some.inj h1
    rw [hnum] at h2
    obtain rfl := Option.some.inj h2
    rw [hm]
    rw [dictGet_dictSet_ne _ _ _ _ (by decide)]
    rw [dictGet_dictSet_ne _ _ _ _ (by decide)]
    rw [dictGet_dictSet_ne _ _ _ _ (by decide)]
    rw [dictGet_dictSet_self]
  · intro fields m mfs0 dv0 d0 h hmet hdv hint
    rcases transformMutate_some fields m h with ⟨tv, t, mfs, dv, d, h1, h2, h3, h4, h5, hm⟩
    rw [dictGet_dictSet_ne _ _ _ _ (by decide), dictGet_dictPop_ne _ _ _ (by decide),
      hmet] at h3
    obtain hobj := Option.some.inj h3
    injection hobj with hmfs
    subst hmfs
    rw [hdv] at h4
    obtain rfl := Option.some.inj h4
    rw [hint] at h5
    obtain rfl := Option.some.inj h5
    refine ⟨dictSet mfs0 "_deltaSeconds" (Value.num ((deltaSecondsBucket d0 : Int) : Rat)),
      ?_, ?_⟩
    · rw [hm]
      rw [dictGet_dictSet_ne _ _ _ _ (by decide)]
      rw [dictGet_dictSet_ne _ _ _ _ (by decide)]
      rw [dictGet_dictSet_self]
    · rw [dictGet_dictSet_self]

/-- C4 counterexample: at timestamp minus one hundred the code truncates toward zero
and yields minus sixty, while the floor form of the claim demands minus one hundred
twenty. -/
theorem c4_cex : ¬ (timestampBucket (-100) = ⌊((-100 : Rat)) / 60 + 1 / 2⌋ * 60) := by
  have h1 : timestampBucket (-100) = -60 := by decide
  have h2 : (⌊((-100 : Rat)) / 60 + 1 / 2⌋ : Int) = -2 := by
    rw [← ratDiv60PlusHalf_eq, Rat.floor_def]
    decide
  intro h
  rw [h1, h2] at h
  norm_num at h

/-- C4 witness. -/
theorem c4_witness :
    ((-30 : Rat) ≤ 1234567
      ∧ timestampBucket 1234567 = ⌊(1234567 : Rat) / 60 + 1 / 2⌋ * 60)
    ∧ dictGet sampleMutated "timestamp" = some (Value.num 0)
    ∧ (∃ mfs, dictGet sampleMutated "metric" = some (Value.obj mfs)
        ∧ dictGet mfs "_deltaSeconds" = some (Value.num 60)) :=
  ⟨⟨by norm_num, c4_rounding.1 1234567 (by norm_num)⟩,
   c4_rounding.2.2.1 sampleRecord sampleMutated (Value.num 0) 0 rfl rfl rfl,
   c4_rounding.2.2.2.1 sampleRecord sampleMutated
     (Fields.cons "_deltaSeconds" (Value.num 0) Fields.nil) (Value.num 0) 0 rfl rfl rfl rfl⟩

/-! Filesystem association list lemmas. -/

theorem fsLookup_fsSet_self (fs : FS) (p : String) (c : List Value) :
    fsLookup (fsSet fs p c) p = some c := by
  induction fs with
  | nil => simp [fsSet, fsLookup]
  | cons e tl ih =>
      obtain ⟨p0, c0⟩ := e
      by_cases h0 : (p0 == p) = true
      · simp [fsSet, fsLookup, h0]
      · simp only [Bool.not_eq_true] at h0
        simp [fsSet, fsLookup, h0, ih]

theorem fsLookup_fsSet_ne (fs : FS) (p : String) (c : List Value) (q : String)
    (h : q ≠ p) : fsLookup (fsSet fs p c) q = fsLookup fs q := by
  have hne : (p == q) = false := beq_eq_false_iff_ne.mpr (fun hh => h hh.symm)
  induction fs with
  | nil => simp [fsSet, fsLookup, hne]
  | cons e tl ih =>
      obtain ⟨p0, c0⟩ := e
      by_cases h0 : (p0 == p) = true
      · have hp0 : p0 = p := beq_iff_eq.mp h0
        simp [fsSet, fsLookup, h0, hp0, hne]
      · simp only [Bool.not_eq_true] at h0
        by_cases h1 : (p0 == q) = true
        · simp [fsSet, fsLookup, h0, h1]
        · simp only [Bool.not_eq_true] at h1
          simp [fsSet, fsLookup, h0, h1, ih]

theorem fsLookup_fsRemove_self (fs : FS) (p : String) :
    fsLookup (fsRemove fs p) p = none := by
  induction fs with
  | nil => rfl
  | cons e tl ih =>
      obtain ⟨p0, c0⟩ := e
      by_cases h0 : (p0 == p) = true
      · simpa [fsRemove, List.filter_cons, h0] using ih
      · simp only [Bool.not_eq_true] at h0
        simpa [fsRemove, List.filter_cons, fsLookup, h0] using ih

theorem fsLookup_fsRemove_ne (fs : FS) (p q : String) (h : q ≠ p) :
    fsLookup (fsRemove fs p) q = fsLookup fs q := by
  induction fs with
  | nil => rfl
  | cons e tl ih =>
      obtain ⟨p0, c0⟩ := e
      by_cases h0 : (p0 == p) = true
      · have hp0 : p0 = p := beq_iff_eq.mp h0
        have hne : (p0 == q) = false := by
          rw [hp0]
          exact beq_eq_false_iff_ne.mpr (fun hh => h hh.symm)
        simpa [fsRemove, List.filter_cons, fsLookup, h0, hne] using ih
      · simp only [Bool.not_eq_true] at h0
        by_cases h1 : (p0 == q) = true
        · simp [fsRemove, List.filter_cons, fsLookup, h0, h1]
        · simp only [Bool.not_eq_true] at h1
          simpa [fsRemove, List.filter_cons, fsLookup, h0, h1] using ih

/-! The temp path differs from the output path. -/

theorem splitPath_spec : ∀ l : List Char,
    (l.contains '/' = true → l = (splitPath l).1 ++ '/' :: (splitPath l).2)
    ∧ (l.contains '/' = false → (splitPath l).1 = [] ∧ (splitPath l).2 = l)
  | [] => ⟨by simp, fun _ => ⟨rfl, rfl⟩⟩
  | c :: rest => by
      by_cases hr : rest.contains '/' = true
      · constructor
        · intro _
          have ih := (splitPath_spec rest).1 hr
          simp only [splitPath]
          rw [if_pos hr]
          conv_lhs => rw [ih]
          simp
        · intro hcc
          have h2 := Bool.or_eq_false_iff.mp hcc
          have h5 : rest.contains '/' = false := h2.2
          rw [h5] at hr
          exact Bool.noConfusion hr
      · have hr2 : rest.contains '/' = false := Bool.not_eq_true _ |>.mp hr
        by_cases hc : (c == '/') = true
        · have hceq : c = '/' := beq_iff_eq.mp hc
          constructor
          · intro _
            simp only [splitPath]
            rw [if_neg (fun hh => Bool.noConfusion (hr2.symm.trans hh)), if_pos hc, hceq]
            rfl
          · intro hcc
            have h2 := Bool.or_eq_false_iff.mp hcc
            have h3 := h2.1
            rw [hceq] at h3
            simp at h3
        · have hc2 : (c == '/') = false := Bool.not_eq_true _ |>.mp hc
          constructor
          · intro hcc
            rcases Bool.or_eq_true_iff.mp hcc with h3 | h3
            · have h4 : '/' = c := beq_iff_eq.mp h3
              rw [← h4] at hc2
              simp at hc2
            · have h5 : rest.contains '/' = true := h3
              rw [h5] at hr2
              exact Bool.noConfusion hr2
          · intro _
            simp only [splitPath]
            rw [if_neg (fun hh => Bool.noConfusion (hr2.symm.trans hh)),
              if_neg (fun hh => Bool.noConfusion (hc2.symm.trans hh))]
            exact ⟨rfl, rfl⟩

theorem pathJoin_data (d f : String) :
    (pathJoin d f).data
      = if d.data.isEmpty then f.data else d.data ++ '/' :: f.data := by
  by_cases h : d.data.isEmpty = true
  · rw [pathJoin, if_pos h, if_pos h]
  · rw [pathJoin, if_neg h, if_neg h]

theorem tempPathOf_data (out : String) :
    (tempPathOf out).data
      = if (splitPath out.data).1.isEmpty then '.' :: (splitPath out.data).2
        else (splitPath out.data).1 ++ '/' :: '.' :: (splitPath out.data).2 := by
  show (pathJoin (dirnameStr out) (String.mk ('.' :: (basenameStr out).data))).data = _
  rw [pathJoin_data]
  rfl

theorem tempPathOf_ne (out : String) : tempPathOf out ≠ out := by
  intro h
  have hdata := congrArg String.data h
  rw [tempPathOf_data] at hdata
  have hsp := splitPath_spec out.data
  by_cases hc : out.data.contains '/' = true
  · have hout := hsp.1 hc
    by_cases hd : (splitPath out.data).1.isEmpty = true
    · have hdnil : (splitPath out.data).1 = [] := by
        cases hq : (splitPath out.data).1 with
        | nil => rfl
        | cons x xs => rw [hq] at hd; simp at hd
      rw [if_pos hd] at hdata
      conv_rhs at hdata => rw [hout, hdnil]
      simp at hdata
    · rw [if_neg hd] at hdata
      conv_rhs at hdata => rw [hout]
      have hlen := congrArg List.length hdata
      simp [List.length_append] at hlen
  · simp only [Bool.not_eq_true] at hc
    have hout := hsp.2 hc
    rw [hout.1, hout.2] at hdata
    simp only [List.isEmpty_nil, if_true] at hdata
    have hlen := congrArg List.length hdata
    simp at hlen

/-! Failure propagation through the per-file procedure. -/

theorem transformRecords_fail : ∀ (sel exc : List String) (recs acc : List Value)
    (r : Value), r ∈ recs → transform_usage_metrics_record r sel exc = none →
    (transformRecords sel exc recs acc).2 = false
  | _, _, [], _, r, hmem, _ => absurd hmem (List.not_mem_nil r)
  | sel, exc, hd :: tl, acc, r, hmem, hnone => by
      cases htr : transform_usage_metrics_record hd sel exc with
      | none => simp [transformRecords, htr]
      | some r2 =>
          rcases List.mem_cons.mp hmem with rfl | hm2
          · rw [htr] at hnone
            exact Option.noConfusion hnone
          · simp only [transformRecords, htr]
            exact transformRecords_fail sel exc tl (acc ++ [r2]) r hm2 hnone

theorem cleanupFailure_after_set (fs : FS) (w : List Value) (out : String)
    (hout : fsLookup fs out = none) :
    fsLookup (cleanupFailure (fsSet fs (tempPathOf out) w) (tempPathOf out) out) out = none
    ∧ fsLookup (cleanupFailure (fsSet fs (tempPathOf out) w) (tempPathOf out) out)
        (tempPathOf out) = none := by
  have hne : out ≠ tempPathOf out := fun hh => (tempPathOf_ne out) hh.symm
  have h1 : fsLookup (fsSet fs (tempPathOf out) w) (tempPathOf out) = some w :=
    fsLookup_fsSet_self fs (tempPathOf out) w
  have h2 : fsLookup (fsRemove (fsSet fs (tempPathOf out) w) (tempPathOf out)) out
      = none := by
    rw [fsLookup_fsRemove_ne _ _ _ hne, fsLookup_fsSet_ne _ _ _ _ hne, hout]
  have hcl : cleanupFailure (fsSet fs (tempPathOf out) w) (tempPathOf out) out
      = fsRemove (fsSet fs (tempPathOf out) w) (tempPathOf out) := by
    rw [cleanupFailure, h1]
    simp only [Option.isSome_some, if_true, h2, Option.isSome_none,
      Bool.false_eq_true, if_false]
  exact ⟨by rw [hcl, h2], by rw [hcl, fsLookup_fsRemove_self]⟩

theorem transform_file_fail (t : Transformer) (fs : FS) (input : String)
    (recs : List Value) (r : Value) (hin : fsLookup fs input = some recs)
    (hmem : r ∈ recs) (hbad : badRecord r = true)
    (hout : fsLookup fs (outputPathOf t input) = none) :
    Transformer._transform_file t fs input
      = (cleanupFailure
          (fsSet fs (tempPathOf (outputPathOf t input))
            (transformRecords t.select_fields t.exclude_fields recs []).1)
          (tempPathOf (outputPathOf t input)) (outputPathOf t input),
         FileOutcome.failed false) := by
  have hfail : (transformRecords t.select_fields t.exclude_fields recs []).2 = false :=
    transformRecords_fail _ _ recs [] r hmem
      (transform_none_of_badRecord _ _ r hbad)
  rw [Transformer._transform_file, hout]
  simp only [Option.isSome_none, Bool.false_eq_true, if_false]
  rw [transform_usage_metrics, hin]
  simp only [hfail, Bool.false_eq_true, if_false, reportsFailure]

/-- C9: a record whose top level timestamp is absent or not numeric, or whose nested
metric deltaSeconds is absent or not numeric (numeric strings count as numeric),
makes the record transform raise instead of defaulting, and a file containing such a
record ends in the failed state with no output file and no temp file left behind. -/
theorem c9_hard_failure :
    (∀ (sel exc : List String) (fields : Fields),
        (badTimestamp fields || badDelta fields) = true →
        transform_usage_metrics_record (Value.obj fields) sel exc = none)
    ∧ (∀ (t : Transformer) (fs : FS) (input : String) (recs : List Value) (r : Value),
        fsLookup fs input = some recs → r ∈ recs → badRecord r = true →
        fsLookup fs (outputPathOf t input) = none →
        ((Transformer._transform_file t fs input).2 = FileOutcome.failed false
         ∧ fsLookup (Transformer._transform_file t fs input).1
             (outputPathOf t input) = none
         ∧ fsLookup (Transformer._transform_file t fs input).1
             (tempPathOf (outputPathOf t input)) = none)) := by
  constructor
  · intro sel exc fields hbad
    exact transform_none_of_badRecord sel exc (Value.obj fields)
      (by simpa [badRecord] using hbad)
  · intro t fs input recs r hin hmem hbad hout
    rw [transform_file_fail t fs input recs r hin hmem hbad hout]
    have hcl := cleanupFailure_after_set fs
      (transformRecords t.select_fields t.exclude_fields recs []).1
      (outputPathOf t input) hout
    exact ⟨rfl, hcl.1, hcl.2⟩

/-- C9 witness. -/
theorem c9_witness :
    ((badTimestamp Fields.nil || badDelta Fields.nil) = true
      ∧ transform_usage_metrics_record (Value.obj Fields.nil) [] [] = none)
    ∧ ((Transformer._transform_file ⟨[], [], "src", "dst", none⟩
          [("src/a/f", [Value.obj Fields.nil])] "src/a/f").2 = FileOutcome.failed false
        ∧ fsLookup (Transformer._transform_file ⟨[], [], "src", "dst", none⟩
            [("src/a/f", [Value.obj Fields.nil])] "src/a/f").1
            (outputPathOf ⟨[], [], "src", "dst", none⟩ "src/a/f") = none
        ∧ fsLookup (Transformer._transform_file ⟨[], [], "src", "dst", none⟩
            [("src/a/f", [Value.obj Fields.nil])] "src/a/f").1
            (tempPathOf (outputPathOf ⟨[], [], "src", "dst", none⟩ "src/a/f")) = none) :=
  ⟨⟨by decide, c9_hard_failure.1 [] [] Fields.nil (by decide)⟩,
   c9_hard_failure.2 ⟨[], [], "src", "dst", none⟩ [("src/a/f", [Value.obj Fields.nil])]
     "src/a/f" [Value.obj Fields.nil] (Value.obj Fields.nil) rfl
     (List.mem_cons_self _ _) (by decide) rfl⟩

/-- C6: on the concrete file whose single record lacks the required fields, the
per-file procedure swallows the failure, cleans up both the temp path and the output
path (the final state equals the initial one), returns control normally so sibling
files continue, and reports nothing: the handler prints its error line only when the
caught exception is a KeyboardInterrupt (inverted test, lines 96-97), so the ordinary
failure is silent, shown by the false flag in the failed outcome. -/
theorem c6_cleanup_silent :
    Transformer._transform_file ⟨[], [], "src", "dst", none⟩
      [("src/a/f", [Value.obj Fields.nil])] "src/a/f"
      = ([("src/a/f", [Value.obj Fields.nil])], FileOutcome.failed false)
    ∧ fsLookup [("src/a/f", [Value.obj Fields.nil])] "dst/a/f" = none
    ∧ fsLookup [("src/a/f", [Value.obj Fields.nil])] "dst/a/.f" = none
    ∧ reportsFailure PyExc.error = false := ⟨rfl, rfl, rfl, rfl⟩

/-- C8: if the output path of a file already exists the per-file procedure skips the
file, changing nothing; hence when every discovered file already has its output (the
state after a fully successful run on identical inputs), running the whole job again
transforms zero files: every file is skipped and the filesystem is returned
unchanged. -/
theorem c8_idempotent_skip :
    (∀ (t : Transformer) (fs : FS) (input : String),
        (fsLookup fs (outputPathOf t input)).isSome = true →
        Transformer._transform_file t fs input = (fs, FileOutcome.skipped))
    ∧ (∀ (t : Transformer) (fs : FS),
        (∀ f, f ∈ discover t fs → (fsLookup fs (outputPathOf t f)).isSome = true) →
        Transformer.transform t fs
          = (fs, (discover t fs).map (fun _ => FileOutcome.skipped))) := by
  have hskip : ∀ (t : Transformer) (fs : FS) (input : String),
      (fsLookup fs (outputPathOf t input)).isSome = true →
      Transformer._transform_file t fs input = (fs, FileOutcome.skipped) := by
    intro t fs input h
    rw [Transformer._transform_file, h]
    simp
  refine ⟨hskip, ?_⟩
  intro t fs hall
  have haux : ∀ (l : List String) (outs : List FileOutcome),
      (∀ f, f ∈ l → (fsLookup fs (outputPathOf t f)).isSome = true) →
      l.foldl (fun acc f =>
        let r := Transformer._transform_file t acc.1 f
        (r.1, acc.2 ++ [r.2])) (fs, outs)
      = (fs, outs ++ l.map (fun _ => FileOutcome.skipped)) := by
    intro l
    induction l with
    | nil => intro outs _; simp
    | cons f tl ih =>
        intro outs hl
        rw [List.foldl_cons]
        have h1 := hskip t fs f (hl f (List.mem_cons_self f tl))
        simp only [h1]
        rw [ih (outs ++ [FileOutcome.skipped])
          (fun g hg => hl g (List.mem_cons_of_mem f hg))]
        simp
  have h2 := haux (discover t fs) [] hall
  rw [Transformer.transform, h2]
  simp

/-- C8 witness. -/
theorem c8_witness :
    ((fsLookup [("src/a", [Value.null]), ("dst/a", [Value.null])]
        (outputPathOf ⟨[], [], "src", "dst", none⟩ "src/a")).isSome = true
      ∧ Transformer._transform_file ⟨[], [], "src", "dst", none⟩
          [("src/a", [Value.null]), ("dst/a", [Value.null])] "src/a"
        = ([("src/a", [Value.null]), ("dst/a", [Value.null])], FileOutcome.skipped))
    ∧ Transformer.transform ⟨[], [], "src", "dst", none⟩
        [("src/a", [Value.null]), ("dst/a", [Value.null])]
      = ([("src/a", [Value.null]), ("dst/a", [Value.null])],
         (discover ⟨[], [], "src", "dst", none⟩
           [("src/a", [Value.null]), ("dst/a", [Value.null])]).map
           (fun _ => FileOutcome.skipped)) :=
  ⟨⟨by decide, c8_idempotent_skip.1 ⟨[], [], "src", "dst", none⟩
      [("src/a", [Value.null]), ("dst/a", [Value.null])] "src/a" (by decide)⟩,
   c8_idempotent_skip.2 ⟨[], [], "src", "dst", none⟩
     [("src/a", [Value.null]), ("dst/a", [Value.null])] (by decide)⟩
